import Mathlib

/-!
Shallow embedding of `src/algae_lib/flowcam_utils.py` (class `FlowCamProcessor`).

Tables are modelled as lists of rows; a row is an association list from column
names to cell values.  A cell value (`RVal`) is either missing (`na`, modelling
pandas `NaN`/`NaT`), a rational number (`numv`, modelling a float cell exactly),
a calendar date (`datev`, modelling a `Timestamp`), a string (`strv`), or an
IEEE infinity (`pinf`/`ninf`, which arise from `pct_change` when the previous
value is zero).  Machine floats are idealised as exact rationals; the special
values `inf`/`-inf`/`nan` that the code can actually produce are represented
explicitly.

Library behaviour that the code relies on is embedded as follows:
* `pd.to_datetime(_, errors="coerce")`  →  `coerceDateV` (ISO `YYYY-MM-DD`
  strings parse; already-datetime cells are fixed; everything else becomes
  missing),
* `pd.to_numeric(_, errors="coerce")`  →  `coerceNumV`,
* `DataFrame.sort_values([c₁,c₂,c₃])` →  stable insertion sort by the
  lexicographic key (pandas uses a stable `lexsort` for multi-column sorts;
  missing keys sort last, matching `na_position="last"`),
* `groupby(...).diff() / .pct_change()` →  `diffPass` (per-series running
  predecessor; division of `d` by a previous value `0` gives `+inf`, `-inf`
  or `nan` according to the sign of `d`, exactly as float division does),
* `pd.cut(..., bins=[0,.5,1,1.5,2,3], include_lowest=True)` → `densityCategory`,
* `DataFrame.round(4)` / numpy rounding → `rnd4`, round-half-to-even at 4
  fractional digits,
* `groupby.agg('std')` → sample standard deviation (`ddof = 1`); its rounded
  value `round4 (sqrt v)` is computed exactly by `rnd4sqrt` in scaled integer
  arithmetic.
-/

namespace FlowCam

/-- A calendar date, modelling a pandas `Timestamp` at day resolution. -/
structure Date where
  y : Int
  m : Nat
  d : Nat
deriving DecidableEq, Repr

/-- Gregorian leap-year test. -/
def isLeap (y : Int) : Bool :=
  (y % 4 == 0 && y % 100 != 0) || y % 400 == 0

/-- Number of days in month `m` of year `y`. -/
def daysInMonth (y : Int) (m : Nat) : Nat :=
  if m = 1 ∨ m = 3 ∨ m = 5 ∨ m = 7 ∨ m = 8 ∨ m = 10 ∨ m = 12 then 31
  else if m = 4 ∨ m = 6 ∨ m = 9 ∨ m = 11 then 30
  else if isLeap y then 29 else 28

/-- A `Date` is a real calendar date.  The pandas `Timestamp` type can only
hold such dates; the embedding's `Date` structure admits junk triples, so
well-formedness is tracked explicitly. -/
def Date.Valid (dt : Date) : Prop :=
  1 ≤ dt.m ∧ dt.m ≤ 12 ∧ 1 ≤ dt.d ∧ dt.d ≤ daysInMonth dt.y dt.m

instance (dt : Date) : Decidable dt.Valid := by
  unfold Date.Valid; infer_instance

/-- Days since 1970-01-01 (Hinnant's days-from-civil algorithm, used to
derive the weekday and the ISO week number). -/
def Date.rataDie (dt : Date) : Int :=
  let y : Int := if dt.m ≤ 2 then dt.y - 1 else dt.y
  let era : Int := (if 0 ≤ y then y else y - 399) / 400
  let yoe : Int := y - era * 400
  let mp : Int := if dt.m ≤ 2 then (dt.m : Int) + 9 else (dt.m : Int) - 3
  let doy : Int := (153 * mp + 2) / 5 + (dt.d : Int) - 1
  let doe : Int := yoe * 365 + yoe / 4 - yoe / 100 + doy
  era * 146097 + doe - 719468

/-- Day of week with Monday = 0, Sunday = 6 (pandas `dayofweek`). -/
def Date.dow (dt : Date) : Int :=
  (dt.rataDie + 3) % 7

/-- Day of the year, 1-based. -/
def Date.ordinalDay (dt : Date) : Int :=
  dt.rataDie - (Date.rataDie ⟨dt.y, 1, 1⟩) + 1

/-- Number of ISO-8601 weeks in year `y` (52 or 53). -/
def isoWeeksInYear (y : Int) : Int :=
  let p : Int → Int := fun z => (z + z / 4 - z / 100 + z / 400) % 7
  if p y = 4 ∨ p (y - 1) = 3 then 53 else 52

/-- ISO-8601 week number of a date (pandas `isocalendar().week`). -/
def Date.isoWeek (dt : Date) : Int :=
  let w : Int := (dt.ordinalDay - (dt.dow + 1) + 10) / 7
  if w < 1 then isoWeeksInYear (dt.y - 1)
  else if isoWeeksInYear dt.y < w then 1
  else w

/-- A cell value of a data frame. -/
inductive RVal where
  | na
  | numv (q : ℚ)
  | datev (dt : Date)
  | strv (s : String)
  | pinf
  | ninf
deriving DecidableEq, Repr

/-- Parse an ISO `YYYY-MM-DD` string into a date.  This models the format
actually used by the repository's data; other `pd.to_datetime` formats are
not modelled. -/
def parseDateStr (s : String) : Option Date :=
  match s.splitOn "-" with
  | [ys, ms, ds] =>
    match ys.toNat?, ms.toNat?, ds.toNat? with
    | some y, some m, some d =>
      if 1 ≤ m ∧ m ≤ 12 ∧ 1 ≤ d ∧ d ≤ daysInMonth y m then
        some ⟨(y : Int), m, d⟩
      else none
    | _, _, _ => none
  | _ => none

/-- Parse a decimal literal (optionally signed, optional fractional part)
into an exact rational, modelling `pd.to_numeric` on a string cell. -/
def parseNumStr (s : String) : Option ℚ :=
  let sgn : ℚ := if s.startsWith "-" then -1 else 1
  let body := if s.startsWith "-" then s.drop 1 else s
  match body.splitOn "." with
  | [ip] => (ip.toNat?).map fun n => sgn * (n : ℚ)
  | [ip, fp] =>
    match ip.toNat?, fp.toNat? with
    | some i, some f => some (sgn * ((i : ℚ) + (f : ℚ) / 10 ^ fp.length))
    | _, _ => none
  | _ => none

/-- `pd.to_datetime(v, errors="coerce")` on one cell.  Numeric cells are
modelled as coercion failures (the repository never feeds epoch numbers to
the date column). -/
def coerceDateV : RVal → RVal
  | .datev dt => .datev dt
  | .strv s => match parseDateStr s with
    | some dt => .datev dt
    | none => .na
  | _ => .na

/-- `pd.to_numeric(v, errors="coerce")` on one cell. -/
def coerceNumV : RVal → RVal
  | .numv q => .numv q
  | .pinf => .pinf
  | .ninf => .ninf
  | .strv s => match parseNumStr s with
    | some q => .numv q
    | none => .na
  | _ => .na

/-- A row: association list from column name to cell value.  Lookup reads
the first matching entry. -/
abbrev Row : Type := List (String × RVal)

/-- Value of column `c` in row `r`; a missing column reads as `na`. -/
def Row.getV (r : Row) (c : String) : RVal :=
  match List.find? (fun p => p.1 = c) r with
  | some p => p.2
  | none => .na

/-- Write value `v` to column `c` of row `r` (replace if present, else
append), modelling `df[c] = ...` at row level. -/
def Row.setV (r : Row) (c : String) (v : RVal) : Row :=
  if List.any r (fun p => p.1 = c) then
    List.map (fun p => if p.1 = c then (c, v) else p) r
  else r ++ [(c, v)]

/-- A data frame: its column names and its rows. -/
structure Frame where
  cols : List String
  rows : List Row
deriving DecidableEq

/-- `self.required_columns`. -/
def requiredColumns : List String := ["date", "tpu", "reactor", "algae_density"]

/-- All required columns are present (the structural-validity check). -/
def structValid (df : Frame) : Bool :=
  requiredColumns.all (fun c => df.cols.contains c)

/-- The per-column coercion that `validate_flowcam_data` and
`clean_flowcam_data` both apply: `to_datetime` on `date`, `to_numeric` on
`tpu`, `reactor` and `algae_density`, identity elsewhere. -/
def coerceFor (c : String) : RVal → RVal :=
  if c = "date" then coerceDateV
  else if c = "tpu" ∨ c = "reactor" ∨ c = "algae_density" then coerceNumV
  else id

/-- Coerce the four required columns of one row. -/
def coerceRow (r : Row) : Row :=
  List.map (fun p => (p.1, coerceFor p.1 p.2)) r

/-- Coerce the four required columns of a frame (the in-place column
assignments of `validate_flowcam_data`, lines 77-105). -/
def coerceFrame (df : Frame) : Frame :=
  { cols := df.cols, rows := df.rows.map coerceRow }

/-! ### Sorting (`DataFrame.sort_values`)

pandas multi-column `sort_values` is a stable lexicographic sort with
missing keys last; it is embedded as `List.insertionSort` (stable) over a
lexicographic key.  Cross-type ordering mirrors float columns:
`-inf < numbers < +inf`, dates by calendar order, and `na` last.  A string
cell carries no key payload: in every reachable call the sort keys are
coerced date/numeric columns, which never hold strings. -/

abbrev SKey : Type := Lex (Nat × Lex (ℚ × Lex (Int × Lex (Nat × Nat))))

def mkSKey (rank : Nat) (q : ℚ) (y : Int) (m d : Nat) : SKey :=
  toLex (rank, toLex (q, toLex (y, toLex (m, d))))

def RVal.sortKey : RVal → SKey
  | .ninf => mkSKey 0 0 0 0 0
  | .numv q => mkSKey 1 q 0 0 0
  | .pinf => mkSKey 2 0 0 0 0
  | .datev dt => mkSKey 3 0 dt.y dt.m dt.d
  | .strv _ => mkSKey 4 0 0 0 0
  | .na => mkSKey 5 0 0 0 0

abbrev SKey3 : Type := Lex (SKey × Lex (SKey × SKey))

/-- The three-column sort key of a row. -/
def rowKey3 (c₁ c₂ c₃ : String) (r : Row) : SKey3 :=
  toLex ((r.getV c₁).sortKey, toLex ((r.getV c₂).sortKey, (r.getV c₃).sortKey))

/-- Row comparison for `sort_values([c₁, c₂, c₃])`. -/
def RowLe (c₁ c₂ c₃ : String) : Row → Row → Prop :=
  fun r r' => rowKey3 c₁ c₂ c₃ r ≤ rowKey3 c₁ c₂ c₃ r'

instance (c₁ c₂ c₃ : String) : DecidableRel (RowLe c₁ c₂ c₃) := by
  unfold RowLe; infer_instance

instance (c₁ c₂ c₃ : String) : IsTotal Row (RowLe c₁ c₂ c₃) :=
  ⟨fun _ _ => le_total _ _⟩

instance (c₁ c₂ c₃ : String) : IsTrans Row (RowLe c₁ c₂ c₃) :=
  ⟨fun _ _ _ => le_trans⟩

def sortRows (c₁ c₂ c₃ : String) (l : List Row) : List Row :=
  l.insertionSort (RowLe c₁ c₂ c₃)

/-! ### `clean_flowcam_data` (lines 121-172) -/

/-- `dropna(subset=['date','tpu','reactor','algae_density'])`, per row. -/
def dropnaRow (r : Row) : Bool :=
  requiredColumns.all fun c => decide (r.getV c ≠ RVal.na)

/-- One conjunct of the range mask: `lo <= cell <= hi`.  A missing cell
compares false (as NaN does); an infinity fails one of the two bounds. -/
def inRangeNum (lo hi : ℚ) : RVal → Bool
  | .numv q => decide (lo ≤ q ∧ q ≤ hi)
  | _ => false

/-- The range mask of lines 152-159. -/
def rangeOKRow (r : Row) : Bool :=
  inRangeNum 1 10 (r.getV "tpu") && inRangeNum 1 20 (r.getV "reactor") &&
    inRangeNum 0 3 (r.getV "algae_density")

/-- `clean_flowcam_data`: coerce the four required columns, drop rows with a
missing required field, filter out-of-range rows, sort by
`(date, tpu, reactor)`, reset the index (implicit: rows are positional).
When a required column is missing, the body raises `KeyError` and the
`except` branch returns the original frame (fail-open). -/
def clean_flowcam_data (df : Frame) : Frame :=
  if structValid df then
    let coerced := (coerceFrame df).rows
    let kept := (coerced.filter dropnaRow).filter rangeOKRow
    { cols := df.cols, rows := sortRows "date" "tpu" "reactor" kept }
  else df

/-! ### `validate_flowcam_data` (lines 47-119) -/

/-- A validation error message. -/
inductive VErr where
  | missingColumns (cols : List String)
deriving DecidableEq, Repr

/-- A validation warning message, with the count it reports. -/
inductive VWarn where
  | invalidDates (n : Nat)
  | invalidTpu (n : Nat)
  | tpuOutOfRange (n : Nat)
  | invalidReactor (n : Nat)
  | reactorOutOfRange (n : Nat)
  | invalidDensity (n : Nat)
  | densityOutOfRange (n : Nat)
deriving DecidableEq, Repr

/-- The dictionary returned by `validate_flowcam_data`. -/
structure VReport where
  is_valid : Bool
  errors : List VErr
  warnings : List VWarn
  row_count : Nat
  column_count : Nat
deriving DecidableEq, Repr

/-- `df[c].isna().sum()` after coercion. -/
def countNa (df : Frame) (c : String) : Nat :=
  df.rows.countP fun r => decide (r.getV c = RVal.na)

/-- `((df[c] < lo) | (df[c] > hi))`, per cell: NaN compares false on both
sides, an infinity is true on one of them. -/
def outOfRange (lo hi : ℚ) : RVal → Bool
  | .numv q => decide (q < lo ∨ hi < q)
  | .pinf => true
  | .ninf => true
  | _ => false

/-- `((df[c] < lo) | (df[c] > hi)).sum()` after coercion. -/
def countOut (df : Frame) (c : String) (lo hi : ℚ) : Nat :=
  df.rows.countP fun r => outOfRange lo hi (r.getV c)

/-- `validate_flowcam_data`.  The Python function mutates `df` in place
(lines 77, 83, 94, 105 assign the coerced columns back into the caller's
frame), so the embedding returns the report together with the frame the
caller observes afterwards.  Each column's coercion touches only that
column, so counting on the fully coerced frame equals the source's
interleaved order.  The `except` branch of lines 115-117 is unreachable:
`errors="coerce"` never raises and NaN comparisons are well defined. -/
def validate_flowcam_data (df : Frame) : VReport × Frame :=
  let missing := requiredColumns.filter fun c => ! df.cols.contains c
  if missing.isEmpty then
    let df' := coerceFrame df
    let warns : List VWarn :=
      (if 0 < countNa df' "date" then [.invalidDates (countNa df' "date")] else []) ++
      (if 0 < countNa df' "tpu" then [.invalidTpu (countNa df' "tpu")] else []) ++
      (if 0 < countOut df' "tpu" 1 10 then [.tpuOutOfRange (countOut df' "tpu" 1 10)] else []) ++
      (if 0 < countNa df' "reactor" then [.invalidReactor (countNa df' "reactor")] else []) ++
      (if 0 < countOut df' "reactor" 1 20 then
        [.reactorOutOfRange (countOut df' "reactor" 1 20)] else []) ++
      (if 0 < countNa df' "algae_density" then
        [.invalidDensity (countNa df' "algae_density")] else []) ++
      (if 0 < countOut df' "algae_density" 0 3 then
        [.densityOutOfRange (countOut df' "algae_density" 0 3)] else [])
    ({ is_valid := true, errors := [], warnings := warns,
       row_count := df.rows.length, column_count := df.cols.length }, df')
  else
    ({ is_valid := false, errors := [.missingColumns missing], warnings := [],
       row_count := df.rows.length, column_count := df.cols.length }, df)

/-! ### `add_derived_columns` (lines 174-212) -/

/-- Every required cell of the row has its semantic type. -/
def typedRow (r : Row) : Bool :=
  (match r.getV "date" with | .datev _ => true | _ => false) &&
  (match r.getV "tpu" with | .numv _ => true | _ => false) &&
  (match r.getV "reactor" with | .numv _ => true | _ => false) &&
  (match r.getV "algae_density" with | .numv _ => true | _ => false)

/-- Guard under which the body of `add_derived_columns` runs without
raising: the `.dt` accessor needs a datetime `date` column and
`pd.cut`/`diff`/`pct_change` need numeric columns.  When it fails, the
`except` branch returns the input unchanged (fail-open). -/
def enrichOK (df : Frame) : Bool :=
  structValid df && df.rows.all typedRow

def addColName (cs : List String) (c : String) : List String :=
  if cs.contains c then cs else cs ++ [c]

/-- `df[c] = <column computed row-wise by g>`. -/
def Frame.addCol (df : Frame) (c : String) (g : Row → RVal) : Frame :=
  { cols := addColName df.cols c, rows := df.rows.map fun r => r.setV c (g r) }

/-- A calendar component of the `date` cell, as a numeric cell. -/
def dateField (f : Date → Int) (r : Row) : RVal :=
  match r.getV "date" with
  | .datev dt => .numv ((f dt : Int) : ℚ)
  | _ => .na

/-- `pd.cut(q, bins=[0, 0.5, 1.0, 1.5, 2.0, 3.0], labels=[...],
include_lowest=True)`: right-closed intervals, first interval closed below
at 0, values outside `[0, 3]` get no category. -/
def densityCategory (q : ℚ) : RVal :=
  if 0 ≤ q ∧ q ≤ 1/2 then .strv "Very Low"
  else if 1/2 < q ∧ q ≤ 1 then .strv "Low"
  else if 1 < q ∧ q ≤ 3/2 then .strv "Medium"
  else if 3/2 < q ∧ q ≤ 2 then .strv "High"
  else if 2 < q ∧ q ≤ 3 then .strv "Very High"
  else .na

def catCol (r : Row) : RVal :=
  match r.getV "algae_density" with
  | .numv q => densityCategory q
  | _ => .na

/-- The running last-seen density per `(tpu, reactor)` group. -/
abbrev PrevMap : Type := List ((ℚ × ℚ) × ℚ)

def lookupPrev (k : ℚ × ℚ) (s : PrevMap) : Option ℚ :=
  match List.find? (fun p => p.1 = k) s with
  | some p => some p.2
  | none => none

/-- `pct_change() * 100` on one step: `(cur / prev - 1) * 100` with float
division semantics at `prev = 0` (`0/0` is NaN, `cur/0` is `±inf`). -/
def pctVal (prev cur : ℚ) : RVal :=
  if prev = 0 then
    if cur = 0 then .na else if 0 < cur then .pinf else .ninf
  else .numv ((cur - prev) / prev * 100)

/-- `groupby(['tpu','reactor'])['algae_density'].diff()` and
`.pct_change() * 100` in one pass over the sorted rows: each row's
predecessor is the nearest earlier row of the same `(tpu, reactor)` group.
The fallback case (an untyped row) cannot occur under `enrichOK`. -/
def diffPass (prev : PrevMap) : List Row → List Row
  | [] => []
  | r :: rs =>
    match r.getV "tpu", r.getV "reactor", r.getV "algae_density" with
    | .numv t, .numv u, .numv d =>
      let dc : RVal := match lookupPrev (t, u) prev with
        | some p => .numv (d - p)
        | none => .na
      let pc : RVal := match lookupPrev (t, u) prev with
        | some p => pctVal p d
        | none => .na
      ((r.setV "density_change" dc).setV "density_change_pct" pc) ::
        diffPass (((t, u), d) :: prev) rs
    | _, _, _ =>
      ((r.setV "density_change" RVal.na).setV "density_change_pct" RVal.na) ::
        diffPass prev rs

/-- The six column additions of lines 188-200: calendar components of
`date` and the density category. -/
def enrichCols (df : Frame) : Frame :=
  (((((df.addCol "year" (dateField Date.y)).addCol
    "month" (dateField fun dt => (dt.m : Int))).addCol
    "day" (dateField fun dt => (dt.d : Int))).addCol
    "day_of_week" (dateField Date.dow)).addCol
    "week_of_year" (dateField Date.isoWeek)).addCol
    "density_category" catCol

/-- `add_derived_columns`: calendar components, density category, re-sort
by `(tpu, reactor, date)`, then group-wise delta and percent change.  On
failure of the guard the `except` branch returns the input (fail-open). -/
def add_derived_columns (df : Frame) : Frame :=
  if enrichOK df then
    { cols := addColName (addColName (enrichCols df).cols "density_change")
        "density_change_pct",
      rows := diffPass [] (sortRows "tpu" "reactor" "date" (enrichCols df).rows) }
  else df

/-! ### `calculate_daily_aggregates` (lines 214-248) -/

/-- Guard under which the aggregation body runs without raising (numeric
density column, hashable typed keys); on failure the `except` branch
returns an empty frame (fail-closed). -/
def aggOK (df : Frame) : Bool :=
  structValid df && df.rows.all typedRow

/-- The `(date, tpu, reactor)` group key of a row. -/
def rowKeyT (r : Row) : Option (Date × ℚ × ℚ) :=
  match r.getV "date", r.getV "tpu", r.getV "reactor" with
  | .datev dt, .numv t, .numv u => some (dt, t, u)
  | _, _, _ => none

def densityOf (r : Row) : Option ℚ :=
  match r.getV "algae_density" with
  | .numv d => some d
  | _ => none

/-- The densities of the group of key `k`, in row order. -/
def groupDensities (df : Frame) (k : Date × ℚ × ℚ) : List ℚ :=
  (df.rows.filter fun r => decide (rowKeyT r = some k)).filterMap densityOf

/-- Ascending order on group keys (`groupby` sorts keys by default). -/
def AggLe (k k' : Date × ℚ × ℚ) : Prop :=
  (toLex ((RVal.datev k.1).sortKey, toLex ((RVal.numv k.2.1).sortKey,
    (RVal.numv k.2.2).sortKey)) : SKey3) ≤
  toLex ((RVal.datev k'.1).sortKey, toLex ((RVal.numv k'.2.1).sortKey,
    (RVal.numv k'.2.2).sortKey))

instance : DecidableRel AggLe := by
  unfold AggLe; infer_instance

instance : IsTotal (Date × ℚ × ℚ) AggLe := ⟨fun _ _ => le_total _ _⟩

instance : IsTrans (Date × ℚ × ℚ) AggLe := ⟨fun _ _ _ => le_trans⟩

/-- The distinct group keys, in ascending order. -/
def aggKeys (df : Frame) : List (Date × ℚ × ℚ) :=
  ((df.rows.filterMap rowKeyT).dedup).insertionSort AggLe

def meanQ (l : List ℚ) : ℚ := l.sum / l.length

def listMin : List ℚ → ℚ
  | [] => 0
  | x :: xs => xs.foldl min x

def listMax : List ℚ → ℚ
  | [] => 0
  | x :: xs => xs.foldl max x

/-- Sample variance with Bessel's correction (`ddof = 1`). -/
def besselVar (l : List ℚ) : ℚ :=
  ((l.map fun x => (x - meanQ l) ^ 2).sum) / ((l.length : ℚ) - 1)

/-- Round to the nearest integer, ties to even (numpy rounding). -/
def roundHalfEven (x : ℚ) : ℤ :=
  let n := ⌊x⌋
  let f := x - n
  if f < 1/2 then n
  else if 1/2 < f then n + 1
  else if n % 2 = 0 then n else n + 1

/-- `round(q, 4)` with ties to even. -/
def rnd4 (q : ℚ) : ℚ := (roundHalfEven (q * 10000) : ℚ) / 10000

/-- Round `Real.sqrt x` to the nearest integer, ties to even, computed in
exact arithmetic: `n = ⌊√x⌋` (valid because `⌊√x⌋ = ⌊√⌊x⌋⌋` for `x ≥ 0`),
and the half-point comparison `√x ≶ n + 1/2` is decided as
`x ≶ (n + 1/2)²`. -/
def sqrtHalfEven (x : ℚ) : ℤ :=
  let n : ℕ := Nat.sqrt ⌊x⌋.toNat
  if x < ((n : ℚ) + 1/2) ^ 2 then n
  else if ((n : ℚ) + 1/2) ^ 2 < x then n + 1
  else if n % 2 = 0 then (n : ℤ) else (n : ℤ) + 1

/-- `round(sqrt v, 4)` with ties to even, in exact scaled-integer
arithmetic: `round4(√v) = halfEven(√(v·10⁸)) / 10⁴`. -/
def rnd4sqrt (v : ℚ) : ℚ := (sqrtHalfEven (v * 10 ^ 8) : ℚ) / 10 ^ 4

/-- `std(ddof=1)` then `round(4)`: absent (NaN) for a single-element
group. -/
def stdVal (l : List ℚ) : RVal :=
  if l.length ≤ 1 then .na else .numv (rnd4sqrt (besselVar l))

def mkAggRow (k : Date × ℚ × ℚ) (ds : List ℚ) : Row :=
  [("date", .datev k.1), ("tpu", .numv k.2.1), ("reactor", .numv k.2.2),
   ("avg_density", .numv (rnd4 (meanQ ds))),
   ("min_density", .numv (rnd4 (listMin ds))),
   ("max_density", .numv (rnd4 (listMax ds))),
   ("std_density", stdVal ds),
   ("measurement_count", .numv (ds.length : ℚ))]

def aggCols : List String :=
  ["date", "tpu", "reactor", "avg_density", "min_density", "max_density",
   "std_density", "measurement_count"]

/-- `calculate_daily_aggregates`: one output row per distinct
`(date, tpu, reactor)` key, with rounded mean/min/max/std and the group
size; an empty frame on internal failure (fail-closed). -/
def calculate_daily_aggregates (df : Frame) : Frame :=
  if aggOK df then
    { cols := aggCols,
      rows := (aggKeys df).map fun k => mkAggRow k (groupDensities df k) }
  else { cols := [], rows := [] }

/-! ### `process_flowcam_file` (lines 250-286)

The CSV read is I/O; the embedding takes its result (`none` models a read
failure) and models the rest of the pipeline.  Note that `validate` has
mutated the frame before `clean` sees it. -/

def process_flowcam_file (input : Option Frame) : Option Frame :=
  match input with
  | none => none
  | some df =>
    let vr := validate_flowcam_data df
    if vr.1.is_valid then some (add_derived_columns (clean_flowcam_data vr.2))
    else none

/-! ### Auxiliary notions used by the specification statements -/

/-- A cell is representable by the table library: the embedding's `Date`
structure admits junk triples, while a pandas `Timestamp` is always a real
calendar date. -/
def RVal.wf : RVal → Bool
  | .datev dt => decide dt.Valid
  | _ => true

/-- Every cell of the frame is representable. -/
def frameWF (df : Frame) : Bool :=
  df.rows.all fun r => r.all fun p => p.2.wf

/-- Whether `clean_flowcam_data` retains (the coerced form of) a row: it
survives the missing-field drop and the range filter.  This predicate reads
only the four required fields of the row. -/
def keepRow (r : Row) : Bool :=
  dropnaRow (coerceRow r) && rangeOKRow (coerceRow r)

/-- The `(tpu, reactor)` series key of a row. -/
def numKey (r : Row) : Option (ℚ × ℚ) :=
  match r.getV "tpu", r.getV "reactor" with
  | .numv t, .numv u => some (t, u)
  | _, _ => none

/-- The rows of one `(tpu, reactor)` series, in table order. -/
def seriesRows (l : List Row) (k : ℚ × ℚ) : List Row :=
  l.filter fun r => decide (numKey r = some k)

/-- Reference annotation of a single series: each row's delta and percent
change against the running predecessor density (`p` seeds the predecessor
from before the series).  Used to state what `diffPass` does to one
series; the fallback case cannot occur for typed rows. -/
def annotate (p : Option ℚ) : List Row → List Row
  | [] => []
  | r :: rs =>
    match r.getV "algae_density" with
    | .numv d =>
      ((r.setV "density_change"
          (match p with | some q => .numv (d - q) | none => .na)).setV
        "density_change_pct"
          (match p with | some q => pctVal q d | none => .na)) ::
        annotate (some d) rs
    | _ => r :: annotate p rs

/-! ### Concrete frames used to instantiate the theorems -/

/-- A series with a zero measurement followed by a positive one. -/
def dfZero : Frame :=
  ⟨["date", "tpu", "reactor", "algae_density"],
   [[("date", .datev ⟨2024, 1, 1⟩), ("tpu", .numv 1), ("reactor", .numv 1),
     ("algae_density", .numv 0)],
    [("date", .datev ⟨2024, 1, 2⟩), ("tpu", .numv 1), ("reactor", .numv 1),
     ("algae_density", .numv 1)]]⟩

/-- A frame whose `tpu` value is changed by coercion (a date cannot be
coerced to a number). -/
def dfBadTpu : Frame :=
  ⟨["date", "tpu", "reactor", "algae_density"],
   [[("date", .datev ⟨2024, 1, 1⟩), ("tpu", .datev ⟨2024, 1, 1⟩),
     ("reactor", .numv 1), ("algae_density", .numv 1)]]⟩

/-- A frame missing the `reactor` and `algae_density` columns. -/
def dfMissing : Frame :=
  ⟨["date", "tpu"],
   [[("date", .datev ⟨2024, 1, 1⟩), ("tpu", .numv 1)]]⟩

/-- A typed frame with an extra column, out-of-range rows and a missing
measurement, exercising every drop reason of the Cleaner. -/
def dfMix : Frame :=
  ⟨["date", "tpu", "reactor", "algae_density", "note"],
   [[("date", .datev ⟨2024, 1, 2⟩), ("tpu", .numv 1), ("reactor", .numv 1),
     ("algae_density", .numv (mkRat 6 5)), ("note", .strv "keep")],
    [("date", .datev ⟨2024, 1, 1⟩), ("tpu", .numv 15), ("reactor", .numv 1),
     ("algae_density", .numv 1), ("note", .strv "tpu out of range")],
    [("date", .datev ⟨2024, 1, 1⟩), ("tpu", .numv 2), ("reactor", .numv 2),
     ("algae_density", .na), ("note", .strv "missing measurement")],
    [("date", .datev ⟨2024, 1, 1⟩), ("tpu", .numv 2), ("reactor", .numv 2),
     ("algae_density", .numv 2), ("note", .na)]]⟩

/-! ## Lemmas about coercion -/

theorem coerceDateV_idem (v : RVal) : coerceDateV (coerceDateV v) = coerceDateV v := by
  cases v <;> try rfl
  rename_i s
  simp only [coerceDateV]
  cases parseDateStr s <;> rfl

theorem coerceNumV_idem (v : RVal) : coerceNumV (coerceNumV v) = coerceNumV v := by
  cases v <;> try rfl
  rename_i s
  simp only [coerceNumV]
  cases parseNumStr s <;> rfl

theorem coerceFor_idem (c : String) (v : RVal) :
    coerceFor c (coerceFor c v) = coerceFor c v := by
  unfold coerceFor
  by_cases h1 : c = "date"
  · simp [h1, coerceDateV_idem]
  · by_cases h2 : c = "tpu" ∨ c = "reactor" ∨ c = "algae_density"
    · simp [h1, h2, coerceNumV_idem]
    · simp [h1, h2]

theorem coerceFor_na (c : String) : coerceFor c RVal.na = RVal.na := by
  unfold coerceFor
  by_cases h1 : c = "date"
  · simp [h1, coerceDateV]
  · by_cases h2 : c = "tpu" ∨ c = "reactor" ∨ c = "algae_density"
    · simp [h1, h2, coerceNumV]
    · simp [h1, h2]

theorem coerceRow_idem (r : Row) : coerceRow (coerceRow r) = coerceRow r := by
  induction r with
  | nil => rfl
  | cons p t ih =>
    simp only [coerceRow, List.map_cons, List.map_map] at *
    simp only [coerceFor_idem]
    exact congrArg _ ih

theorem getV_coerceRow (r : Row) (c : String) :
    Row.getV (coerceRow r) c = coerceFor c (Row.getV r c) := by
  induction r with
  | nil => simpa [coerceRow, Row.getV] using (coerceFor_na c).symm
  | cons p t ih =>
    by_cases h : p.1 = c
    · subst h
      simp [coerceRow, Row.getV, List.find?]
    · simpa [coerceRow, Row.getV, List.find?, h] using ih

/-- The shape of a coerced date cell: a date or missing. -/
theorem coerceDateV_shape (v : RVal) :
    (∃ dt, coerceDateV v = RVal.datev dt) ∨ coerceDateV v = RVal.na := by
  cases v <;> try exact Or.inr rfl
  · exact Or.inl ⟨_, rfl⟩
  · rename_i s
    simp only [coerceDateV]
    cases parseDateStr s
    · exact Or.inr rfl
    · exact Or.inl ⟨_, rfl⟩

/-- A date produced by parsing is a real calendar date. -/
theorem parseDateStr_valid (s : String) (dt : Date)
    (h : parseDateStr s = some dt) : dt.Valid := by
  unfold parseDateStr at h
  split at h
  · split at h
    · split at h
      · rename_i hcond
        obtain ⟨h1, h2, h3, h4⟩ := hcond
        cases h
        exact ⟨by exact_mod_cast h1, by exact_mod_cast h2, by exact_mod_cast h3,
          by exact_mod_cast h4⟩
      · exact absurd h (by simp)
    · exact absurd h (by simp)
  · exact absurd h (by simp)

/-! ## Lemmas about `Row.getV` and `Row.setV` -/

theorem getV_map_set_self (r : Row) (c : String) (v : RVal)
    (hany : r.any (fun p => p.1 = c) = true) :
    Row.getV (r.map fun p => if p.1 = c then (c, v) else p) c = v := by
  induction r with
  | nil => simp at hany
  | cons q t ih =>
    by_cases h : q.1 = c
    · simp [Row.getV, List.find?, h]
    · have hany' : t.any (fun p => p.1 = c) = true := by
        simpa [List.any_cons, h] using hany
      simpa [Row.getV, List.find?, h] using ih hany'

theorem getV_map_set_ne (r : Row) (c c' : String) (v : RVal) (h : c' ≠ c) :
    Row.getV (r.map fun p => if p.1 = c then (c, v) else p) c' = r.getV c' := by
  induction r with
  | nil => simp [Row.getV]
  | cons q t ih =>
    by_cases hq : q.1 = c
    · have hcc : ¬ ((c : String) = c') := fun hc => h hc.symm
      have hqc' : ¬ (q.1 = c') := fun hc => h (hq ▸ hc).symm
      simpa [Row.getV, List.find?, hq, hcc, hqc'] using ih
    · by_cases hq' : q.1 = c'
      · simp [Row.getV, List.find?, hq, hq', h]
      · simpa [Row.getV, List.find?, hq, hq'] using ih

theorem getV_append_single (r : Row) (c : String) (v : RVal)
    (h : r.any (fun p => p.1 = c) = false) :
    Row.getV (r ++ [(c, v)]) c = v := by
  induction r with
  | nil => simp [Row.getV, List.find?]
  | cons q t ih =>
    simp only [List.any_cons, Bool.or_eq_false_iff] at h
    have hq : ¬ (q.1 = c) := by simpa using h.1
    simpa [Row.getV, List.find?, hq] using ih h.2

theorem getV_append_single_ne (r : Row) (c c' : String) (v : RVal) (h : c' ≠ c) :
    Row.getV (r ++ [(c, v)]) c' = r.getV c' := by
  induction r with
  | nil =>
    have : ¬ ((c : String) = c') := fun hc => h hc.symm
    simp [Row.getV, List.find?, this]
  | cons q t ih =>
    by_cases hq : q.1 = c'
    · simp [Row.getV, List.find?, hq]
    · simpa [Row.getV, List.find?, hq] using ih

theorem getV_setV_self (r : Row) (c : String) (v : RVal) :
    Row.getV (r.setV c v) c = v := by
  unfold Row.setV
  by_cases h : r.any (fun p => p.1 = c) = true
  · simp only [h, if_true]
    exact getV_map_set_self r c v h
  · simp only [h, if_false]
    exact getV_append_single r c v (by rwa [Bool.not_eq_true] at h)

theorem getV_setV_ne (r : Row) (c c' : String) (v : RVal) (h : c' ≠ c) :
    Row.getV (r.setV c v) c' = r.getV c' := by
  unfold Row.setV
  by_cases hall : r.any (fun p => p.1 = c)
  · simp [hall, getV_map_set_ne r c c' v h]
  · simp [hall, getV_append_single_ne r c c' v h]

/-- A non-missing cell read from a row is one of the row's entries. -/
theorem getV_mem (r : Row) (c : String) (h : r.getV c ≠ RVal.na) :
    ∃ p ∈ r, p.2 = r.getV c := by
  unfold Row.getV at h ⊢
  cases hf : List.find? (fun p => p.1 = c) r with
  | none => rw [hf] at h; simp at h
  | some p =>
    exact ⟨p, List.mem_of_find?_eq_some hf, rfl⟩

/-! ## Lemmas about `clean_flowcam_data` -/

theorem clean_eq (df : Frame) (hs : structValid df = true) :
    clean_flowcam_data df =
      ⟨df.cols, sortRows "date" "tpu" "reactor"
        (((df.rows.map coerceRow).filter dropnaRow).filter rangeOKRow)⟩ := by
  simp [clean_flowcam_data, hs, coerceFrame]

theorem mem_clean_rows (df : Frame) (hs : structValid df = true) (r : Row) :
    r ∈ (clean_flowcam_data df).rows ↔
      r ∈ df.rows.map coerceRow ∧ dropnaRow r = true ∧ rangeOKRow r = true := by
  rw [clean_eq df hs]
  simp only [sortRows, List.mem_insertionSort, List.mem_filter]
  tauto

theorem inRangeNum_elim (lo hi : ℚ) (v : RVal) (h : inRangeNum lo hi v = true) :
    ∃ q, v = RVal.numv q ∧ lo ≤ q ∧ q ≤ hi := by
  cases v <;> simp [inRangeNum] at h
  rename_i q
  exact ⟨q, rfl, h.1, h.2⟩

theorem rangeOKRow_elim (r : Row) (h : rangeOKRow r = true) :
    (∃ t, r.getV "tpu" = RVal.numv t ∧ 1 ≤ t ∧ t ≤ 10) ∧
    (∃ u, r.getV "reactor" = RVal.numv u ∧ 1 ≤ u ∧ u ≤ 20) ∧
    (∃ m, r.getV "algae_density" = RVal.numv m ∧ 0 ≤ m ∧ m ≤ 3) := by
  simp only [rangeOKRow, Bool.and_eq_true] at h
  exact ⟨inRangeNum_elim _ _ _ h.1.1, inRangeNum_elim _ _ _ h.1.2,
    inRangeNum_elim _ _ _ h.2⟩

theorem dropna_date_ne (r : Row) (h : dropnaRow r = true) :
    r.getV "date" ≠ RVal.na := by
  have := List.all_eq_true.mp h "date" (by simp [requiredColumns])
  simpa using this

/-- The date cell of a retained coerced row is a date. -/
theorem kept_date_shape (r₀ : Row) (hd : dropnaRow (coerceRow r₀) = true) :
    ∃ dt, (coerceRow r₀).getV "date" = RVal.datev dt := by
  have h1 := dropna_date_ne _ hd
  rw [getV_coerceRow] at h1 ⊢
  have hc : coerceFor "date" = coerceDateV := by simp [coerceFor]
  rw [hc] at h1 ⊢
  rcases coerceDateV_shape (r₀.getV "date") with ⟨dt, hdt⟩ | hna
  · exact ⟨dt, hdt⟩
  · exact absurd hna h1

/-- The date cell of a retained coerced row is a real calendar date,
provided the input row's cells were representable. -/
theorem kept_date_valid (r₀ : Row) (dt : Date)
    (hwf : ∀ p ∈ r₀, RVal.wf p.2 = true)
    (h : (coerceRow r₀).getV "date" = RVal.datev dt) : dt.Valid := by
  rw [getV_coerceRow] at h
  have hc : coerceFor "date" = coerceDateV := by simp [coerceFor]
  rw [hc] at h
  cases hv : r₀.getV "date" with
  | datev dt₀ =>
    rw [hv] at h
    simp only [coerceDateV, RVal.datev.injEq] at h
    have hne : r₀.getV "date" ≠ RVal.na := by rw [hv]; simp
    obtain ⟨p, hp, hp2⟩ := getV_mem r₀ "date" hne
    have := hwf p hp
    rw [hp2, hv] at this
    simp only [RVal.wf, decide_eq_true_eq] at this
    exact h ▸ this
  | strv s =>
    rw [hv] at h
    simp only [coerceDateV] at h
    cases hp : parseDateStr s with
    | none => rw [hp] at h; simp at h
    | some dt' =>
      rw [hp] at h
      simp only [RVal.datev.injEq] at h
      exact h ▸ parseDateStr_valid s dt' hp
  | na => rw [hv] at h; simp [coerceDateV] at h
  | numv q => rw [hv] at h; simp [coerceDateV] at h
  | pinf => rw [hv] at h; simp [coerceDateV] at h
  | ninf => rw [hv] at h; simp [coerceDateV] at h

/-! ## Typedness -/

theorem typedRow_elim (r : Row) (h : typedRow r = true) :
    (∃ dt, r.getV "date" = RVal.datev dt) ∧ (∃ t, r.getV "tpu" = RVal.numv t) ∧
    (∃ u, r.getV "reactor" = RVal.numv u) ∧
    (∃ d, r.getV "algae_density" = RVal.numv d) := by
  simp only [typedRow, Bool.and_eq_true] at h
  obtain ⟨⟨⟨h1, h2⟩, h3⟩, h4⟩ := h
  refine ⟨?_, ?_, ?_, ?_⟩
  · cases hv : r.getV "date" <;> rw [hv] at h1 <;> first | exact ⟨_, rfl⟩ | simp at h1
  · cases hv : r.getV "tpu" <;> rw [hv] at h2 <;> first | exact ⟨_, rfl⟩ | simp at h2
  · cases hv : r.getV "reactor" <;> rw [hv] at h3 <;> first | exact ⟨_, rfl⟩ | simp at h3
  · cases hv : r.getV "algae_density" <;> rw [hv] at h4 <;>
      first | exact ⟨_, rfl⟩ | simp at h4

theorem clean_rows_typed (df : Frame) (hs : structValid df = true) :
    ∀ r ∈ (clean_flowcam_data df).rows, typedRow r = true := by
  intro r hr
  rw [mem_clean_rows df hs] at hr
  obtain ⟨hmap, hdrop, hrange⟩ := hr
  obtain ⟨r₀, _, rfl⟩ := List.mem_map.mp hmap
  obtain ⟨dt, hdate⟩ := kept_date_shape r₀ hdrop
  obtain ⟨⟨t, ht, _⟩, ⟨u, hu, _⟩, ⟨m, hm, _⟩⟩ := rangeOKRow_elim _ hrange
  simp [typedRow, hdate, ht, hu, hm]

theorem clean_cols (df : Frame) : (clean_flowcam_data df).cols = df.cols := by
  unfold clean_flowcam_data
  split <;> rfl

theorem structValid_clean (df : Frame) :
    structValid (clean_flowcam_data df) = structValid df := by
  unfold structValid
  rw [clean_cols]

theorem enrichOK_clean (df : Frame) (hs : structValid df = true) :
    enrichOK (clean_flowcam_data df) = true := by
  simp only [enrichOK, Bool.and_eq_true]
  exact ⟨by rw [structValid_clean]; exact hs,
    List.all_eq_true.mpr fun r hr => clean_rows_typed df hs r hr⟩

/-! ## Sort-order transfer -/

theorem sorted_rowle_iff (c₁ c₂ c₃ : String) (l : List Row) :
    List.Sorted (RowLe c₁ c₂ c₃) l ↔
      List.Pairwise (fun a b : SKey3 => a ≤ b) (l.map (rowKey3 c₁ c₂ c₃)) := by
  rw [List.pairwise_map]
  exact Iff.rfl

theorem rowKey3_setV_other (c₁ c₂ c₃ c : String) (r : Row) (v : RVal)
    (h1 : c₁ ≠ c) (h2 : c₂ ≠ c) (h3 : c₃ ≠ c) :
    rowKey3 c₁ c₂ c₃ (r.setV c v) = rowKey3 c₁ c₂ c₃ r := by
  simp [rowKey3, getV_setV_ne _ _ _ _ h1, getV_setV_ne _ _ _ _ h2,
    getV_setV_ne _ _ _ _ h3]

theorem getV_diffSet (r : Row) (a b : RVal) (c : String)
    (h1 : c ≠ "density_change") (h2 : c ≠ "density_change_pct") :
    Row.getV ((r.setV "density_change" a).setV "density_change_pct" b) c =
      r.getV c := by
  rw [getV_setV_ne _ _ _ _ h2, getV_setV_ne _ _ _ _ h1]

/-- `diffPass` only writes the two derived columns; the sort key of every
row is unchanged. -/
theorem diffPass_map_key (prev : PrevMap) (l : List Row) :
    (diffPass prev l).map (rowKey3 "tpu" "reactor" "date") =
      l.map (rowKey3 "tpu" "reactor" "date") := by
  induction l generalizing prev with
  | nil => rfl
  | cons r rs ih =>
    have key_eq : ∀ a b : RVal,
        rowKey3 "tpu" "reactor" "date"
          ((r.setV "density_change" a).setV "density_change_pct" b) =
          rowKey3 "tpu" "reactor" "date" r := by
      intro a b
      rw [rowKey3_setV_other _ _ _ _ _ _ (by decide) (by decide) (by decide),
        rowKey3_setV_other _ _ _ _ _ _ (by decide) (by decide) (by decide)]
    unfold diffPass
    split
    · simp [key_eq, ih]
    · simp [key_eq, ih]

/-! ## Series extraction: what `diffPass` does to one `(tpu, reactor)`
series -/

theorem lookupPrev_cons (k k' : ℚ × ℚ) (d : ℚ) (prev : PrevMap) :
    lookupPrev k ((k', d) :: prev) =
      if k' = k then some d else lookupPrev k prev := by
  by_cases h : k' = k <;> simp [lookupPrev, List.find?, h]

theorem numKey_diffSet (r : Row) (a b : RVal) :
    numKey ((r.setV "density_change" a).setV "density_change_pct" b) =
      numKey r := by
  unfold numKey
  rw [getV_diffSet _ _ _ _ (by decide) (by decide),
    getV_diffSet _ _ _ _ (by decide) (by decide)]

theorem densityOf_diffSet (r : Row) (a b : RVal) :
    densityOf ((r.setV "density_change" a).setV "density_change_pct" b) =
      densityOf r := by
  unfold densityOf
  rw [getV_diffSet _ _ _ _ (by decide) (by decide)]

theorem seriesRows_cons (x : Row) (l : List Row) (k : ℚ × ℚ) :
    seriesRows (x :: l) k =
      if numKey x = some k then x :: seriesRows l k else seriesRows l k := by
  by_cases h : numKey x = some k <;> simp [seriesRows, List.filter_cons, h]

theorem annotate_cons (p : Option ℚ) (r : Row) (rs : List Row) (d : ℚ)
    (hd : r.getV "algae_density" = RVal.numv d) :
    annotate p (r :: rs) =
      ((r.setV "density_change"
          (match p with | some q => RVal.numv (d - q) | none => RVal.na)).setV
        "density_change_pct"
          (match p with | some q => pctVal q d | none => RVal.na)) ::
        annotate (some d) rs := by
  simp only [annotate, hd]

/-- Within each series, `diffPass` computes exactly the reference
annotation seeded with the predecessor recorded in its state. -/
theorem seriesRows_diffPass (k : ℚ × ℚ) (l : List Row) :
    ∀ prev : PrevMap, (∀ r ∈ l, typedRow r = true) →
      seriesRows (diffPass prev l) k =
        annotate (lookupPrev k prev) (seriesRows l k) := by
  induction l with
  | nil => intro prev _; rfl
  | cons r rs ih =>
    intro prev ht
    obtain ⟨⟨dt, hdate⟩, ⟨t, htpu⟩, ⟨u, hreac⟩, ⟨d, hden⟩⟩ :=
      typedRow_elim r (ht r (List.mem_cons_self r rs))
    have htail : ∀ x ∈ rs, typedRow x = true := fun x hx =>
      ht x (List.mem_cons_of_mem _ hx)
    have hdp : diffPass prev (r :: rs) =
        ((r.setV "density_change" (match lookupPrev (t, u) prev with
            | some p => RVal.numv (d - p) | none => RVal.na)).setV
          "density_change_pct" (match lookupPrev (t, u) prev with
            | some p => pctVal p d | none => RVal.na)) ::
          diffPass (((t, u), d) :: prev) rs := by
      simp only [diffPass, htpu, hreac, hden]
    have hnk : numKey r = some (t, u) := by simp [numKey, htpu, hreac]
    rw [hdp, seriesRows_cons, numKey_diffSet, hnk, seriesRows_cons, hnk]
    by_cases hk : (t, u) = k
    · subst hk
      simp only [eq_self_iff_true, if_true]
      rw [ih (((t, u), d) :: prev) htail, lookupPrev_cons, if_pos rfl]
      rw [annotate_cons _ _ _ d hden]
    · have hk' : ¬ (some (t, u) = some k) := by simpa using hk
      rw [if_neg hk', if_neg hk', ih (((t, u), d) :: prev) htail,
        lookupPrev_cons, if_neg hk]

/-- The first row of a series annotated with no predecessor has missing
delta and percent change. -/
theorem annotate_none_head (l : List Row) (ht : ∀ r ∈ l, typedRow r = true)
    (r : Row) (h : (annotate none l).head? = some r) :
    r.getV "density_change" = RVal.na ∧
      r.getV "density_change_pct" = RVal.na := by
  cases l with
  | nil => simp [annotate] at h
  | cons r₀ t =>
    obtain ⟨_, _, _, ⟨d, hd⟩⟩ := typedRow_elim r₀ (ht r₀ (by simp))
    simp only [annotate, hd, List.head?_cons, Option.some.injEq] at h
    subst h
    refine ⟨?_, ?_⟩
    · rw [getV_setV_ne _ _ _ _ (by decide), getV_setV_self]
    · rw [getV_setV_self]

/-- Every later row of an annotated series carries the exact delta and
percent change against its predecessor's density. -/
theorem annotate_chain (l : List Row) :
    ∀ p : Option ℚ, (∀ r ∈ l, typedRow r = true) →
      List.Chain' (fun r r' : Row => ∀ a b : ℚ,
        densityOf r = some a → densityOf r' = some b →
          r'.getV "density_change" = RVal.numv (b - a) ∧
          r'.getV "density_change_pct" = pctVal a b) (annotate p l) := by
  induction l with
  | nil => intro p _; simp [annotate]
  | cons r rs ih =>
    intro p ht
    obtain ⟨_, _, _, ⟨d, hd⟩⟩ := typedRow_elim r (ht r (by simp))
    have htail : ∀ x ∈ rs, typedRow x = true := fun x hx => ht x (by simp [hx])
    simp only [annotate, hd]
    cases rs with
    | nil => simp [annotate]
    | cons r₂ t =>
      obtain ⟨_, _, _, ⟨d₂, hd₂⟩⟩ := typedRow_elim r₂ (htail r₂ (by simp))
      have ihx := ih (some d) htail
      simp only [annotate, hd₂] at ihx ⊢
      rw [List.chain'_cons]
      refine ⟨?_, ihx⟩
      intro a b ha hb
      have ha' : a = d := by
        rw [densityOf_diffSet] at ha
        simp [densityOf, hd] at ha
        exact ha.symm
      have hb' : b = d₂ := by
        rw [densityOf_diffSet] at hb
        simp [densityOf, hd₂] at hb
        exact hb.symm
      subst ha' hb'
      exact ⟨by rw [getV_setV_ne _ _ _ _ (by decide), getV_setV_self],
        by rw [getV_setV_self]⟩

/-! ## Assembly lemmas for `add_derived_columns` -/

theorem typedRow_setV_other (r : Row) (c : String) (v : RVal)
    (h1 : ("date" : String) ≠ c) (h2 : ("tpu" : String) ≠ c)
    (h3 : ("reactor" : String) ≠ c) (h4 : ("algae_density" : String) ≠ c) :
    typedRow (r.setV c v) = typedRow r := by
  unfold typedRow
  rw [getV_setV_ne _ _ _ _ h1, getV_setV_ne _ _ _ _ h2,
    getV_setV_ne _ _ _ _ h3, getV_setV_ne _ _ _ _ h4]

theorem addCol_rows_typed (df : Frame) (c : String) (g : Row → RVal)
    (h1 : ("date" : String) ≠ c) (h2 : ("tpu" : String) ≠ c)
    (h3 : ("reactor" : String) ≠ c) (h4 : ("algae_density" : String) ≠ c)
    (h : ∀ r ∈ df.rows, typedRow r = true) :
    ∀ r ∈ (df.addCol c g).rows, typedRow r = true := by
  intro r hr
  simp only [Frame.addCol, List.mem_map] at hr
  obtain ⟨r₀, hr₀, rfl⟩ := hr
  rw [typedRow_setV_other _ _ _ h1 h2 h3 h4]
  exact h r₀ hr₀

theorem enrichCols_rows_typed (df : Frame)
    (h : ∀ r ∈ df.rows, typedRow r = true) :
    ∀ r ∈ (enrichCols df).rows, typedRow r = true := by
  unfold enrichCols
  apply addCol_rows_typed _ _ _ (by decide) (by decide) (by decide) (by decide)
  apply addCol_rows_typed _ _ _ (by decide) (by decide) (by decide) (by decide)
  apply addCol_rows_typed _ _ _ (by decide) (by decide) (by decide) (by decide)
  apply addCol_rows_typed _ _ _ (by decide) (by decide) (by decide) (by decide)
  apply addCol_rows_typed _ _ _ (by decide) (by decide) (by decide) (by decide)
  apply addCol_rows_typed _ _ _ (by decide) (by decide) (by decide) (by decide)
  exact h

theorem enrich_eq (df : Frame) (he : enrichOK df = true) :
    add_derived_columns df =
      ⟨addColName (addColName (enrichCols df).cols "density_change")
        "density_change_pct",
       diffPass [] (sortRows "tpu" "reactor" "date" (enrichCols df).rows)⟩ := by
  simp [add_derived_columns, he]

theorem enrich_sorted_rows_typed (df : Frame) (he : enrichOK df = true) :
    ∀ r ∈ sortRows "tpu" "reactor" "date" (enrichCols df).rows,
      typedRow r = true := by
  intro r hr
  rw [sortRows, List.mem_insertionSort] at hr
  have h2 : df.rows.all typedRow = true := by
    simp only [enrichOK, Bool.and_eq_true] at he
    exact he.2
  exact enrichCols_rows_typed df (List.all_eq_true.mp h2) r hr

theorem lookupPrev_nil (k : ℚ × ℚ) : lookupPrev k [] = none := rfl

theorem seriesRows_enrich (df : Frame) (he : enrichOK df = true) (k : ℚ × ℚ) :
    seriesRows (add_derived_columns df).rows k =
      annotate none
        (seriesRows (sortRows "tpu" "reactor" "date" (enrichCols df).rows) k) := by
  rw [enrich_eq df he]
  rw [seriesRows_diffPass k _ [] (enrich_sorted_rows_typed df he), lookupPrev_nil]

theorem seriesRows_sublist_typed (df : Frame) (he : enrichOK df = true)
    (k : ℚ × ℚ) :
    ∀ r ∈ seriesRows (sortRows "tpu" "reactor" "date" (enrichCols df).rows) k,
      typedRow r = true := by
  intro r hr
  rw [seriesRows, List.mem_filter] at hr
  exact enrich_sorted_rows_typed df he r hr.1

theorem enrich_rows_sorted (df : Frame) (he : enrichOK df = true) :
    List.Sorted (RowLe "tpu" "reactor" "date") (add_derived_columns df).rows := by
  rw [enrich_eq df he]
  rw [sorted_rowle_iff, diffPass_map_key, ← sorted_rowle_iff]
  exact List.sorted_insertionSort _ _

/-! ## Claim C5 -/

/-- C5: for a structurally valid `t`, the rows of
`add_derived_columns (clean_flowcam_data t)` are in ascending
`(tpu, reactor, date)` order; within each `(tpu, reactor)` series the first
row has missing delta and percent change, and every later row's delta is
exactly its measurement minus its predecessor's measurement. -/
theorem enrich_clean_series (t : Frame) (hs : structValid t = true) :
    List.Sorted (RowLe "tpu" "reactor" "date")
      (add_derived_columns (clean_flowcam_data t)).rows ∧
    ∀ k : ℚ × ℚ,
      (∀ r : Row,
        (seriesRows (add_derived_columns (clean_flowcam_data t)).rows k).head? =
          some r →
        r.getV "density_change" = RVal.na ∧
        r.getV "density_change_pct" = RVal.na) ∧
      List.Chain' (fun r r' : Row => ∀ a b : ℚ,
        densityOf r = some a → densityOf r' = some b →
          r'.getV "density_change" = RVal.numv (b - a))
        (seriesRows (add_derived_columns (clean_flowcam_data t)).rows k) := by
  have he := enrichOK_clean t hs
  refine ⟨enrich_rows_sorted _ he, fun k => ⟨?_, ?_⟩⟩
  · intro r hr
    rw [seriesRows_enrich _ he k] at hr
    exact annotate_none_head _ (seriesRows_sublist_typed _ he k) r hr
  · rw [seriesRows_enrich _ he k]
    exact (annotate_chain _ none (seriesRows_sublist_typed _ he k)).imp
      fun r r' h a b ha hb => (h a b ha hb).1

/-- Witness for `enrich_clean_series` at the concrete frame `dfMix`. -/
theorem enrich_clean_series_witness :
    structValid dfMix = true ∧
    List.Sorted (RowLe "tpu" "reactor" "date")
      (add_derived_columns (clean_flowcam_data dfMix)).rows :=
  ⟨by decide, (enrich_clean_series dfMix (by decide)).1⟩

/-! ## Claim C2 -/

/-- C2: counterexample — in `dfZero`'s single series the second row's
predecessor has measurement exactly 0, yet its percent-change cell is
`+inf`, which is not the absent value. -/
theorem pct_change_zero_prev_cex :
    (add_derived_columns dfZero).rows.map
      (fun r => r.getV "density_change_pct") = [RVal.na, RVal.pinf] ∧
    RVal.pinf ≠ RVal.na :=
  ⟨by decide, by decide⟩

/-- C2 (amended): when a row's predecessor within its `(tpu, reactor)`
series has measurement exactly 0, `add_derived_columns` signals no error
and the row's percent change is the float-division value: absent only when
the row's own measurement is also 0, `+inf` when it is positive and `-inf`
when it is negative.  Every consecutive series pair gets `pctVal`, whose
value at a zero predecessor is exactly that case split. -/
theorem enrich_pct_zero_prev (df : Frame) (he : enrichOK df = true) :
    (∀ b : ℚ, pctVal 0 b =
      if b = 0 then RVal.na else if 0 < b then RVal.pinf else RVal.ninf) ∧
    ∀ k : ℚ × ℚ,
      List.Chain' (fun r r' : Row => ∀ a b : ℚ,
        densityOf r = some a → densityOf r' = some b →
          r'.getV "density_change_pct" = pctVal a b)
        (seriesRows (add_derived_columns df).rows k) := by
  refine ⟨fun b => by simp [pctVal], fun k => ?_⟩
  rw [seriesRows_enrich df he k]
  exact (annotate_chain _ none (seriesRows_sublist_typed _ he k)).imp
    fun r r' h a b ha hb => (h a b ha hb).2

/-- Witness for `enrich_pct_zero_prev` at the concrete frame `dfZero`. -/
theorem enrich_pct_zero_prev_witness :
    enrichOK dfZero = true ∧
    (∀ b : ℚ, pctVal 0 b =
      if b = 0 then RVal.na else if 0 < b then RVal.pinf else RVal.ninf) :=
  ⟨by decide, (enrich_pct_zero_prev dfZero (by decide)).1⟩

/-! ## Claim C4 -/

/-- C4: the density bucketing maps 0 and 0.5 to "Very Low", 1.5 to
"Medium", 3.0 to "Very High", follows the interval boundaries
`[0, 0.5], (0.5, 1], (1, 1.5], (1.5, 2], (2, 3]`, and yields no category
(rather than failing) for any measurement outside `[0, 3]`. -/
theorem densityCategory_boundaries :
    densityCategory 0 = RVal.strv "Very Low" ∧
    densityCategory (1/2) = RVal.strv "Very Low" ∧
    densityCategory (3/2) = RVal.strv "Medium" ∧
    densityCategory 3 = RVal.strv "Very High" ∧
    (∀ q : ℚ, 0 ≤ q → q ≤ 1/2 → densityCategory q = RVal.strv "Very Low") ∧
    (∀ q : ℚ, 1/2 < q → q ≤ 1 → densityCategory q = RVal.strv "Low") ∧
    (∀ q : ℚ, 1 < q → q ≤ 3/2 → densityCategory q = RVal.strv "Medium") ∧
    (∀ q : ℚ, 3/2 < q → q ≤ 2 → densityCategory q = RVal.strv "High") ∧
    (∀ q : ℚ, 2 < q → q ≤ 3 → densityCategory q = RVal.strv "Very High") ∧
    (∀ q : ℚ, q < 0 ∨ 3 < q → densityCategory q = RVal.na) := by
  have hVL : ∀ q : ℚ, 0 ≤ q → q ≤ 1/2 →
      densityCategory q = RVal.strv "Very Low" := by
    intro q h1 h2
    unfold densityCategory
    rw [if_pos ⟨h1, h2⟩]
  have hLow : ∀ q : ℚ, 1/2 < q → q ≤ 1 →
      densityCategory q = RVal.strv "Low" := by
    intro q h1 h2
    unfold densityCategory
    rw [if_neg (by rintro ⟨x1, x2⟩; linarith), if_pos ⟨h1, h2⟩]
  have hMed : ∀ q : ℚ, 1 < q → q ≤ 3/2 →
      densityCategory q = RVal.strv "Medium" := by
    intro q h1 h2
    unfold densityCategory
    rw [if_neg (by rintro ⟨x1, x2⟩; linarith),
      if_neg (by rintro ⟨x1, x2⟩; linarith), if_pos ⟨h1, h2⟩]
  have hHigh : ∀ q : ℚ, 3/2 < q → q ≤ 2 →
      densityCategory q = RVal.strv "High" := by
    intro q h1 h2
    unfold densityCategory
    rw [if_neg (by rintro ⟨x1, x2⟩; linarith),
      if_neg (by rintro ⟨x1, x2⟩; linarith),
      if_neg (by rintro ⟨x1, x2⟩; linarith), if_pos ⟨h1, h2⟩]
  have hVH : ∀ q : ℚ, 2 < q → q ≤ 3 →
      densityCategory q = RVal.strv "Very High" := by
    intro q h1 h2
    unfold densityCategory
    rw [if_neg (by rintro ⟨x1, x2⟩; linarith),
      if_neg (by rintro ⟨x1, x2⟩; linarith),
      if_neg (by rintro ⟨x1, x2⟩; linarith),
      if_neg (by rintro ⟨x1, x2⟩; linarith), if_pos ⟨h1, h2⟩]
  have hNa : ∀ q : ℚ, q < 0 ∨ 3 < q → densityCategory q = RVal.na := by
    intro q hq
    unfold densityCategory
    rcases hq with h | h
    · rw [if_neg (by rintro ⟨x1, x2⟩; linarith),
        if_neg (by rintro ⟨x1, x2⟩; linarith),
        if_neg (by rintro ⟨x1, x2⟩; linarith),
        if_neg (by rintro ⟨x1, x2⟩; linarith),
        if_neg (by rintro ⟨x1, x2⟩; linarith)]
    · rw [if_neg (by rintro ⟨x1, x2⟩; linarith),
        if_neg (by rintro ⟨x1, x2⟩; linarith),
        if_neg (by rintro ⟨x1, x2⟩; linarith),
        if_neg (by rintro ⟨x1, x2⟩; linarith),
        if_neg (by rintro ⟨x1, x2⟩; linarith)]
  exact ⟨hVL 0 le_rfl (by norm_num), hVL (1/2) (by norm_num) le_rfl,
    hMed (3/2) (by norm_num) le_rfl, hVH 3 (by norm_num) le_rfl,
    hVL, hLow, hMed, hHigh, hVH, hNa⟩

/-! ## Validator helper lemmas -/

theorem getV_coerceRow_other (r : Row) (c : String)
    (hcn : c ∉ requiredColumns) : (coerceRow r).getV c = r.getV c := by
  rw [getV_coerceRow]
  simp only [requiredColumns, List.mem_cons, List.not_mem_nil, or_false,
    not_or] at hcn
  obtain ⟨h1, h2, h3, h4⟩ := hcn
  unfold coerceFor
  rw [if_neg h1, if_neg (by tauto)]
  rfl

theorem forall2_map_self {α : Type} (R : α → α → Prop) (f : α → α)
    (l : List α) (h : ∀ x ∈ l, R x (f x)) : List.Forall₂ R l (l.map f) := by
  induction l with
  | nil => exact List.Forall₂.nil
  | cons a t ih =>
    exact List.Forall₂.cons (h a (List.mem_cons_self a t))
      (ih fun x hx => h x (List.mem_cons_of_mem _ hx))

theorem validate_is_valid (df : Frame) :
    (validate_flowcam_data df).1.is_valid =
      (requiredColumns.filter fun c => ! df.cols.contains c).isEmpty := by
  simp only [validate_flowcam_data]
  by_cases h : (requiredColumns.filter fun c => ! df.cols.contains c).isEmpty = true
  · rw [if_pos h]
    exact h.symm
  · rw [if_neg h]
    exact (Bool.eq_false_iff.mpr h).symm

theorem validate_snd_valid (df : Frame)
    (h : (validate_flowcam_data df).1.is_valid = true) :
    (validate_flowcam_data df).2 = coerceFrame df := by
  rw [validate_is_valid] at h
  simp only [validate_flowcam_data]
  rw [if_pos h]

theorem validate_snd_invalid (df : Frame)
    (h : (validate_flowcam_data df).1.is_valid = false) :
    (validate_flowcam_data df).2 = df := by
  rw [validate_is_valid] at h
  simp only [validate_flowcam_data]
  rw [if_neg (by rw [h]; exact Bool.false_ne_true)]

theorem structValid_iff_filter_nil (df : Frame) :
    structValid df = true ↔
      (requiredColumns.filter fun c => ! df.cols.contains c) = [] := by
  rw [structValid, List.all_eq_true, List.filter_eq_nil_iff]
  simp

theorem validate_valid_structValid (df : Frame)
    (h : (validate_flowcam_data df).1.is_valid = true) :
    structValid df = true := by
  rw [validate_is_valid, List.isEmpty_iff] at h
  exact (structValid_iff_filter_nil df).mpr h

/-- Cleaning the frame that `validate` coerced in place gives the same
result as cleaning the raw frame: the per-column coercions are
idempotent. -/
theorem clean_coerceFrame (df : Frame) (hs : structValid df = true) :
    clean_flowcam_data (coerceFrame df) = clean_flowcam_data df := by
  have hs' : structValid (coerceFrame df) = true := hs
  rw [clean_eq _ hs', clean_eq _ hs]
  have : (coerceFrame df).rows.map coerceRow = df.rows.map coerceRow := by
    simp only [coerceFrame, List.map_map]
    have hfe : coerceRow ∘ coerceRow = coerceRow := funext fun r => coerceRow_idem r
    rw [hfe]
  rw [this]
  rfl

/-! ## Claim C6 -/

/-- C6: for every table missing at least one of the four required columns,
`validate_flowcam_data` reports `is_valid = false` with exactly one error
listing the missing column names, an empty warning list, and performs no
coercion (the caller's table is untouched). -/
theorem validate_missing_columns (df : Frame)
    (h : ∃ c ∈ requiredColumns, c ∉ df.cols) :
    (validate_flowcam_data df).1.is_valid = false ∧
    (validate_flowcam_data df).1.errors =
      [VErr.missingColumns
        (requiredColumns.filter fun c => ! df.cols.contains c)] ∧
    (requiredColumns.filter fun c => ! df.cols.contains c) ≠ [] ∧
    (validate_flowcam_data df).1.warnings = [] ∧
    (validate_flowcam_data df).2 = df := by
  obtain ⟨c, hc, hnc⟩ := h
  have hmem : c ∈ requiredColumns.filter fun c => ! df.cols.contains c := by
    rw [List.mem_filter]
    refine ⟨hc, ?_⟩
    simpa using hnc
  cases hl : requiredColumns.filter fun c => ! df.cols.contains c with
  | nil => rw [hl] at hmem; simp at hmem
  | cons a as =>
    have hie : ¬ ((requiredColumns.filter fun c =>
        ! df.cols.contains c).isEmpty = true) := by
      rw [hl]
      exact Bool.false_ne_true
    refine ⟨?_, ?_, by simp, ?_, ?_⟩
    · simp only [validate_flowcam_data]
      rw [if_neg hie]
    · simp only [validate_flowcam_data]
      rw [if_neg hie, hl]
    · simp only [validate_flowcam_data]
      rw [if_neg hie]
    · simp only [validate_flowcam_data]
      rw [if_neg hie]

/-- Witness for `validate_missing_columns` at the concrete frame
`dfMissing`. -/
theorem validate_missing_columns_witness :
    (∃ c ∈ requiredColumns, c ∉ dfMissing.cols) ∧
    (validate_flowcam_data dfMissing).1.is_valid = false :=
  ⟨by decide, (validate_missing_columns dfMissing (by decide)).1⟩

/-! ## Claim C1 -/

/-- C1: counterexample — `validate_flowcam_data` mutates its input as
observed by the caller: the `tpu` column of `dfBadTpu` holds a different
value after the call (its unparseable cell was coerced to missing). -/
theorem validate_mutates_cex : (validate_flowcam_data dfBadTpu).2 ≠ dfBadTpu := by
  decide

/-- C1 (amended): `validate_flowcam_data` writes the coerced required
columns back into the caller's table: when all four required columns are
present, the table observed afterwards is the column-coerced table (so the
input is mutated whenever coercion changes any value); when a required
column is missing it is untouched.  In both cases every column other than
the required four keeps its value in every row, and the column list and
row count are unchanged. -/
theorem validate_effect (df : Frame) :
    ((validate_flowcam_data df).1.is_valid = true →
      (validate_flowcam_data df).2 = coerceFrame df) ∧
    ((validate_flowcam_data df).1.is_valid = false →
      (validate_flowcam_data df).2 = df) ∧
    (validate_flowcam_data df).2.cols = df.cols ∧
    (validate_flowcam_data df).2.rows.length = df.rows.length ∧
    List.Forall₂ (fun r₀ r' : Row => ∀ c : String, c ∉ requiredColumns →
      r'.getV c = r₀.getV c) df.rows (validate_flowcam_data df).2.rows := by
  refine ⟨validate_snd_valid df, validate_snd_invalid df, ?_, ?_, ?_⟩
  all_goals
    cases hv : (validate_flowcam_data df).1.is_valid
  case _ =>
    rw [validate_snd_invalid df hv]
  case _ =>
    rw [validate_snd_valid df hv]; rfl
  case _ =>
    rw [validate_snd_invalid df hv]
  case _ =>
    rw [validate_snd_valid df hv]; simp [coerceFrame]
  case _ =>
    rw [validate_snd_invalid df hv]
    exact List.forall₂_same.mpr fun r _ c _ => rfl
  case _ =>
    rw [validate_snd_valid df hv]
    simp only [coerceFrame]
    exact forall2_map_self _ _ _ fun r _ c hcn => getV_coerceRow_other r c hcn

/-- Witness for `validate_effect` at the concrete frame `dfBadTpu`. -/
theorem validate_effect_witness :
    (validate_flowcam_data dfBadTpu).1.is_valid = true ∧
    (validate_flowcam_data dfBadTpu).2 = coerceFrame dfBadTpu :=
  ⟨by decide, (validate_effect dfBadTpu).1 (by decide)⟩

/-! ## Claim C9 -/

/-- C9: the pipeline returns the absent sentinel whenever the read failed
or the validator reports `is_valid = false`, producing no partial output;
otherwise it returns exactly the Enricher applied to the Cleaner applied
to the raw table. -/
theorem process_pipeline (df : Frame) :
    process_flowcam_file none = none ∧
    ((validate_flowcam_data df).1.is_valid = false →
      process_flowcam_file (some df) = none) ∧
    ((validate_flowcam_data df).1.is_valid = true →
      process_flowcam_file (some df) =
        some (add_derived_columns (clean_flowcam_data df))) := by
  refine ⟨rfl, ?_, ?_⟩
  · intro h
    simp [process_flowcam_file, h]
  · intro h
    simp only [process_flowcam_file, h, if_true]
    rw [validate_snd_valid df h,
      clean_coerceFrame df (validate_valid_structValid df h)]

/-- Witness for `process_pipeline` at the concrete frame `dfMix`. -/
theorem process_pipeline_witness :
    (validate_flowcam_data dfMix).1.is_valid = true ∧
    process_flowcam_file (some dfMix) =
      some (add_derived_columns (clean_flowcam_data dfMix)) :=
  ⟨by decide, (process_pipeline dfMix).2.2 (by decide)⟩

/-! ## Claim C8 -/

theorem map_eq_self_of {α : Type} (f : α → α) (l : List α)
    (h : ∀ a ∈ l, f a = a) : l.map f = l := by
  induction l with
  | nil => rfl
  | cons a t ih =>
    simp only [List.map_cons, h a (List.mem_cons_self a t),
      ih fun x hx => h x (List.mem_cons_of_mem _ hx)]

/-- C8: `clean_flowcam_data` is idempotent on structurally valid tables:
cleaning a cleaned table returns it unchanged — same rows, same values,
same order (the stable sort leaves an already-sorted table fixed), same
positional index. -/
theorem clean_idempotent (df : Frame) (hs : structValid df = true) :
    clean_flowcam_data (clean_flowcam_data df) = clean_flowcam_data df := by
  have hs2 : structValid (clean_flowcam_data df) = true := by
    rw [structValid_clean]
    exact hs
  have hmem : ∀ r ∈ (clean_flowcam_data df).rows,
      coerceRow r = r ∧ dropnaRow r = true ∧ rangeOKRow r = true := by
    intro r hr
    rw [mem_clean_rows df hs] at hr
    obtain ⟨hm, h1, h2⟩ := hr
    obtain ⟨r₀, _, rfl⟩ := List.mem_map.mp hm
    exact ⟨coerceRow_idem r₀, h1, h2⟩
  rw [clean_eq _ hs2]
  rw [map_eq_self_of _ _ fun r hr => (hmem r hr).1]
  rw [List.filter_eq_self.mpr fun r hr => (hmem r hr).2.1]
  rw [List.filter_eq_self.mpr fun r hr => (hmem r hr).2.2]
  have hsorted : List.Sorted (RowLe "date" "tpu" "reactor")
      (clean_flowcam_data df).rows := by
    rw [clean_eq _ hs]
    exact List.sorted_insertionSort _ _
  rw [sortRows, List.Sorted.insertionSort_eq hsorted]

/-- Witness for `clean_idempotent` at the concrete frame `dfMix`. -/
theorem clean_idempotent_witness :
    structValid dfMix = true ∧
    clean_flowcam_data (clean_flowcam_data dfMix) = clean_flowcam_data dfMix :=
  ⟨by decide, clean_idempotent dfMix (by decide)⟩

/-! ## Claim C3 -/

/-- C3: every row of the cleaned table satisfies the MeasurementRecord
invariants: a real calendar date, `1 ≤ tpu ≤ 10`, `1 ≤ reactor ≤ 20`,
`0 ≤ algae_density ≤ 3`, all bounds inclusive.  The frame is assumed
representable (`frameWF`): the embedding's `Date` type admits junk triples
that the table library's timestamp type cannot hold. -/
theorem clean_invariants (df : Frame) (hs : structValid df = true)
    (hw : frameWF df = true) :
    ∀ r ∈ (clean_flowcam_data df).rows,
      (∃ dt : Date, r.getV "date" = RVal.datev dt ∧ dt.Valid) ∧
      (∃ t : ℚ, r.getV "tpu" = RVal.numv t ∧ 1 ≤ t ∧ t ≤ 10) ∧
      (∃ u : ℚ, r.getV "reactor" = RVal.numv u ∧ 1 ≤ u ∧ u ≤ 20) ∧
      (∃ m : ℚ, r.getV "algae_density" = RVal.numv m ∧ 0 ≤ m ∧ m ≤ 3) := by
  intro r hr
  rw [mem_clean_rows df hs] at hr
  obtain ⟨hm, h1, h2⟩ := hr
  obtain ⟨r₀, hr₀, rfl⟩ := List.mem_map.mp hm
  obtain ⟨dt, hdt⟩ := kept_date_shape r₀ h1
  have hwf : ∀ p ∈ r₀, RVal.wf p.2 = true := by
    unfold frameWF at hw
    have hall := List.all_eq_true.mp hw r₀ hr₀
    exact fun p hp => List.all_eq_true.mp hall p hp
  exact ⟨⟨dt, hdt, kept_date_valid r₀ dt hwf hdt⟩, rangeOKRow_elim _ h2⟩

/-- Witness for `clean_invariants` at the concrete frame `dfMix`. -/
theorem clean_invariants_witness :
    structValid dfMix = true ∧ frameWF dfMix = true ∧
    ∀ r ∈ (clean_flowcam_data dfMix).rows,
      (∃ dt : Date, r.getV "date" = RVal.datev dt ∧ dt.Valid) ∧
      (∃ t : ℚ, r.getV "tpu" = RVal.numv t ∧ 1 ≤ t ∧ t ≤ 10) ∧
      (∃ u : ℚ, r.getV "reactor" = RVal.numv u ∧ 1 ≤ u ∧ u ≤ 20) ∧
      (∃ m : ℚ, r.getV "algae_density" = RVal.numv m ∧ 0 ≤ m ∧ m ≤ 3) :=
  ⟨by decide, by decide, clean_invariants dfMix (by decide) (by decide)⟩

/-! ## Claim C10 -/

theorem all_congr_mem {α : Type} (l : List α) (f g : α → Bool)
    (h : ∀ x ∈ l, f x = g x) : l.all f = l.all g := by
  induction l with
  | nil => rfl
  | cons a t ih =>
    simp only [List.all_cons, h a (List.mem_cons_self a t),
      ih fun x hx => h x (List.mem_cons_of_mem _ hx)]

/-- C10: on its guarded path, `clean_flowcam_data` keeps or drops a row
based only on the four required fields — two rows agreeing on those fields
are kept or dropped together — and in every retained row the values of
all non-required columns pass through unchanged (retained rows are exactly
coerced input rows, and coercion touches only the required columns). -/
theorem clean_extra_columns (df : Frame) (hs : structValid df = true) :
    (∀ r ∈ (clean_flowcam_data df).rows, ∃ r₀ ∈ df.rows, r = coerceRow r₀ ∧
      ∀ c : String, c ∉ requiredColumns → r.getV c = r₀.getV c) ∧
    (∀ r₀ ∈ df.rows, keepRow r₀ = true →
      coerceRow r₀ ∈ (clean_flowcam_data df).rows) ∧
    (∀ r₁ r₂ : Row, (∀ c ∈ requiredColumns, r₁.getV c = r₂.getV c) →
      keepRow r₁ = keepRow r₂) := by
  refine ⟨?_, ?_, ?_⟩
  · intro r hr
    rw [mem_clean_rows df hs] at hr
    obtain ⟨hm, _, _⟩ := hr
    obtain ⟨r₀, hr₀, rfl⟩ := List.mem_map.mp hm
    exact ⟨r₀, hr₀, rfl, fun c hc => getV_coerceRow_other r₀ c hc⟩
  · intro r₀ hr₀ hk
    rw [mem_clean_rows df hs]
    simp only [keepRow, Bool.and_eq_true] at hk
    exact ⟨List.mem_map_of_mem _ hr₀, hk.1, hk.2⟩
  · intro r₁ r₂ hsame
    have hget : ∀ c ∈ requiredColumns,
        (coerceRow r₁).getV c = (coerceRow r₂).getV c := by
      intro c hc
      rw [getV_coerceRow, getV_coerceRow, hsame c hc]
    have hdr : dropnaRow (coerceRow r₁) = dropnaRow (coerceRow r₂) := by
      unfold dropnaRow
      exact all_congr_mem _ _ _ fun c hc => by rw [hget c hc]
    have hrng : rangeOKRow (coerceRow r₁) = rangeOKRow (coerceRow r₂) := by
      unfold rangeOKRow
      rw [hget "tpu" (by simp [requiredColumns]),
        hget "reactor" (by simp [requiredColumns]),
        hget "algae_density" (by simp [requiredColumns])]
    unfold keepRow
    rw [hdr, hrng]

/-- Witness for `clean_extra_columns` at the concrete frame `dfMix`. -/
theorem clean_extra_columns_witness :
    structValid dfMix = true ∧
    ∀ r₀ ∈ dfMix.rows, keepRow r₀ = true →
      coerceRow r₀ ∈ (clean_flowcam_data dfMix).rows :=
  ⟨by decide, (clean_extra_columns dfMix (by decide)).2.1⟩

/-! ## Claim C7 -/

theorem map_congr_mem {α β : Type} (l : List α) (f g : α → β)
    (h : ∀ x ∈ l, f x = g x) : l.map f = l.map g := by
  induction l with
  | nil => rfl
  | cons a t ih =>
    simp only [List.map_cons, h a (List.mem_cons_self a t),
      ih fun x hx => h x (List.mem_cons_of_mem _ hx)]

theorem filterMap_length_of_isSome {α β : Type} (f : α → Option β)
    (l : List α) (h : ∀ x ∈ l, (f x).isSome = true) :
    (l.filterMap f).length = l.length := by
  induction l with
  | nil => rfl
  | cons a t ih =>
    cases hf : f a with
    | none =>
      have := h a (List.mem_cons_self a t)
      rw [hf] at this
      simp at this
    | some b =>
      simp only [List.filterMap_cons, hf, List.length_cons]
      rw [ih fun x hx => h x (List.mem_cons_of_mem _ hx)]

theorem sqrtHalfEven_nonneg (x : ℚ) : 0 ≤ sqrtHalfEven x := by
  unfold sqrtHalfEven
  dsimp only
  split_ifs
  · exact Int.natCast_nonneg _
  · exact add_nonneg (Int.natCast_nonneg _) zero_le_one
  · exact Int.natCast_nonneg _
  · exact add_nonneg (Int.natCast_nonneg _) zero_le_one

theorem rnd4sqrt_nonneg (v : ℚ) : 0 ≤ rnd4sqrt v := by
  unfold rnd4sqrt
  apply div_nonneg
  · exact_mod_cast sqrtHalfEven_nonneg _
  · norm_num

theorem agg_eq (df : Frame) (h : aggOK df = true) :
    calculate_daily_aggregates df =
      ⟨aggCols, (aggKeys df).map fun k => mkAggRow k (groupDensities df k)⟩ := by
  simp [calculate_daily_aggregates, h]

theorem rowKeyT_mkAggRow (k : Date × ℚ × ℚ) (ds : List ℚ) :
    rowKeyT (mkAggRow k ds) = some k := rfl

theorem mkAggRow_getV_count (k : Date × ℚ × ℚ) (ds : List ℚ) :
    (mkAggRow k ds).getV "measurement_count" = RVal.numv (ds.length : ℚ) := rfl

theorem mkAggRow_getV_avg (k : Date × ℚ × ℚ) (ds : List ℚ) :
    (mkAggRow k ds).getV "avg_density" = RVal.numv (rnd4 (meanQ ds)) := rfl

theorem mkAggRow_getV_min (k : Date × ℚ × ℚ) (ds : List ℚ) :
    (mkAggRow k ds).getV "min_density" = RVal.numv (rnd4 (listMin ds)) := rfl

theorem mkAggRow_getV_max (k : Date × ℚ × ℚ) (ds : List ℚ) :
    (mkAggRow k ds).getV "max_density" = RVal.numv (rnd4 (listMax ds)) := rfl

theorem mkAggRow_getV_std (k : Date × ℚ × ℚ) (ds : List ℚ) :
    (mkAggRow k ds).getV "std_density" = stdVal ds := rfl

theorem aggKeys_nodup (df : Frame) : (aggKeys df).Nodup :=
  ((List.perm_insertionSort AggLe _).symm).nodup
    (List.nodup_dedup _)

theorem mem_aggKeys (df : Frame) (k : Date × ℚ × ℚ) :
    k ∈ aggKeys df ↔ ∃ r ∈ df.rows, rowKeyT r = some k := by
  unfold aggKeys
  rw [List.mem_insertionSort, List.mem_dedup, List.mem_filterMap]

theorem densityOf_isSome_of_typed (r : Row) (ht : typedRow r = true) :
    (densityOf r).isSome = true := by
  obtain ⟨_, _, _, ⟨d, hd⟩⟩ := typedRow_elim r ht
  simp [densityOf, hd]

theorem groupDensities_length (df : Frame) (h : aggOK df = true)
    (k : Date × ℚ × ℚ) :
    (groupDensities df k).length =
      (df.rows.filter fun x => decide (rowKeyT x = some k)).length := by
  unfold groupDensities
  apply filterMap_length_of_isSome
  intro x hx
  have hx' := (List.mem_filter.mp hx).1
  have htyped : typedRow x = true := by
    simp only [aggOK, Bool.and_eq_true] at h
    exact List.all_eq_true.mp h.2 x hx'
  exact densityOf_isSome_of_typed x htyped

theorem groupDensities_pos (df : Frame) (h : aggOK df = true)
    (k : Date × ℚ × ℚ) (hk : k ∈ aggKeys df) :
    1 ≤ (groupDensities df k).length := by
  rw [groupDensities_length df h k]
  obtain ⟨r, hr, hkey⟩ := (mem_aggKeys df k).mp hk
  have hm : r ∈ df.rows.filter fun x => decide (rowKeyT x = some k) :=
    List.mem_filter.mpr ⟨hr, by simp [hkey]⟩
  exact List.length_pos.mpr (List.ne_nil_of_mem hm)

/-- C7: for every aggregation-typed table, `calculate_daily_aggregates`
produces exactly one row per distinct `(date, tpu, reactor)` key, whose
`measurement_count` is the group size; `std_density` is absent when the
group is a singleton and is the 4-digit round-half-even of the
Bessel-corrected sample standard deviation (hence non-negative) when the
group has at least two members; `avg/min/max_density` are the 4-digit
round-half-even of the exact mean, minimum and maximum. -/
theorem aggregates_spec (df : Frame) (h : aggOK df = true) :
    ((calculate_daily_aggregates df).rows.map rowKeyT =
      (aggKeys df).map fun k => some k) ∧
    (aggKeys df).Nodup ∧
    (∀ k : Date × ℚ × ℚ, k ∈ aggKeys df ↔
      ∃ r ∈ df.rows, rowKeyT r = some k) ∧
    (∀ r ∈ (calculate_daily_aggregates df).rows, ∃ k : Date × ℚ × ℚ,
      rowKeyT r = some k ∧
      r.getV "measurement_count" =
        RVal.numv ((groupDensities df k).length : ℚ) ∧
      (groupDensities df k).length =
        (df.rows.filter fun x => decide (rowKeyT x = some k)).length ∧
      1 ≤ (groupDensities df k).length ∧
      ((groupDensities df k).length = 1 →
        r.getV "std_density" = RVal.na) ∧
      (2 ≤ (groupDensities df k).length →
        r.getV "std_density" =
          RVal.numv (rnd4sqrt (besselVar (groupDensities df k))) ∧
        0 ≤ rnd4sqrt (besselVar (groupDensities df k))) ∧
      r.getV "avg_density" = RVal.numv (rnd4 (meanQ (groupDensities df k))) ∧
      r.getV "min_density" = RVal.numv (rnd4 (listMin (groupDensities df k))) ∧
      r.getV "max_density" =
        RVal.numv (rnd4 (listMax (groupDensities df k)))) := by
  refine ⟨?_, aggKeys_nodup df, mem_aggKeys df, ?_⟩
  · rw [agg_eq df h]
    simp only [List.map_map]
    exact map_congr_mem _ _ _ fun k _ => rowKeyT_mkAggRow k (groupDensities df k)
  · intro r hr
    rw [agg_eq df h] at hr
    obtain ⟨k, hk, rfl⟩ := List.mem_map.mp hr
    refine ⟨k, rowKeyT_mkAggRow _ _, mkAggRow_getV_count _ _,
      groupDensities_length df h k, groupDensities_pos df h k hk, ?_, ?_,
      mkAggRow_getV_avg _ _, mkAggRow_getV_min _ _, mkAggRow_getV_max _ _⟩
    · intro h1
      rw [mkAggRow_getV_std]
      unfold stdVal
      rw [if_pos (by omega)]
    · intro h2
      rw [mkAggRow_getV_std]
      unfold stdVal
      rw [if_neg (by omega)]
      exact ⟨rfl, rnd4sqrt_nonneg _⟩

/-- Witness for `aggregates_spec` at the concrete frame `dfZero`. -/
theorem aggregates_spec_witness :
    aggOK dfZero = true ∧ (aggKeys dfZero).Nodup :=
  ⟨by decide, (aggregates_spec dfZero (by decide)).2.1⟩

/-- Witness for `densityCategory_boundaries` at 1/4 (inside the first
bucket) and 4 (outside the domain). -/
theorem densityCategory_boundaries_witness :
    ((0 : ℚ) ≤ 1/4 ∧ (1/4 : ℚ) ≤ 1/2 ∧
      densityCategory (1/4) = RVal.strv "Very Low") ∧
    ((3 : ℚ) < 4 ∧ densityCategory 4 = RVal.na) :=
  ⟨⟨by norm_num, by norm_num,
      densityCategory_boundaries.2.2.2.2.1 (1/4) (by norm_num) (by norm_num)⟩,
    ⟨by norm_num,
      densityCategory_boundaries.2.2.2.2.2.2.2.2.2 4 (Or.inr (by norm_num))⟩⟩

end FlowCam
